import Mathlib

/-!
Verification development for the project-orchestrator-template repository.

The Python sources are shallowly embedded as Lean definitions:

- src/rcs_service.py : the adaptive provider-priority engine
  (get_api_priority_list, log_api_failure, _read_rcs_logs).
- src/ai_service.py : the multi-provider fallback loop
  (get_ai_checkpoint_draft) and its failure classification.
- src/checkpoint.py : the checkpoint lifecycle
  (_get_next_checkpoint_index, create_new_checkpoint, update_checkpoint_file).
- src/gui_frames.py : the draft-pending guard (check_draft_status) and the
  GUI draft save (_save_draft_and_open_review).
- src/git_service.py : commit_changes and its draft-cleanup phase.

Python floats carry only a few decimal literals here (0.1, efficiency scores);
no float arithmetic is performed on them apart from comparisons, so they are
modelled exactly as rationals.  File-system effects are modelled as explicit
state (lists of files) plus boolean oracles for the IO operations that can
fail.  Log files follow the repository naming convention
timestamp-project-checkpoint-INDEX.yaml (INDEX a number, or NEW for a pending
draft), so a log file is modelled by its timestamp, project and tag.
-/

/-! ### Reflection log entries (rcs_service.py)

A document in reflection_logs.yaml is either an API_FAILURE entry written by
log_api_failure (carrying a model name and a penalty_score, 0.1 in practice),
a checkpoint entry whose reflections block carries api_efficiency_scores
(a mapping model-name to score, kept here as an ordered association list,
matching Python dict iteration order), or some other document that
get_api_priority_list ignores. -/
inductive LogEntry where
  | apiFailure (model : String) (penalty : ℚ)
  | checkpointEntry (scores : List (String × ℚ))
  | other
deriving DecidableEq

/-- One step of the scan in get_api_priority_list over the efficiency-score
dictionary of a checkpoint entry: a model's score is adopted only when the
model is in the base list and its current priority is strictly above 0.1. -/
def applyScores (base : List String) (m : String → ℚ) (scores : List (String × ℚ)) :
    String → ℚ :=
  scores.foldl
    (fun acc p =>
      if p.1 ∈ base ∧ mkRat 1 10 < acc p.1 then Function.update acc p.1 p.2 else acc) m

/-- One step of the forward scan over the reflection logs in
get_api_priority_list: an API_FAILURE entry overwrites the model's priority
with its penalty score; a checkpoint entry applies its efficiency scores. -/
def applyEntry (base : List String) (m : String → ℚ) : LogEntry → (String → ℚ)
  | .apiFailure model penalty =>
      if model ∈ base then Function.update m model penalty else m
  | .checkpointEntry scores => applyScores base m scores
  | .other => m

/-- The priority map built by get_api_priority_list: every model of the base
list starts at the neutral score 1.0 and the log entries are folded over it in
file order (so the latest applicable entry wins). -/
def priority_map (base : List String) (logs : List LogEntry) : String → ℚ :=
  logs.foldl (applyEntry base) (fun _ => 1)

/-- Stable insertion into a list sorted by strictly descending score: the new
element is placed before the first element of strictly smaller score, hence
after any element of equal score, reproducing the stability of Python's
sorted with reverse=True. -/
def insertDesc (score : String → ℚ) (x : String) : List String → List String
  | [] => [x]
  | y :: ys => if score y < score x then x :: y :: ys else y :: insertDesc score x ys

/-- Stable sort by descending score (the behaviour of Python's
sorted(base_list, key=score, reverse=True)). -/
def sortDesc (score : String → ℚ) (l : List String) : List String :=
  l.foldl (fun acc x => insertDesc score x acc) []

/-- get_api_priority_list from rcs_service.py.  The call to random.shuffle in
the all-neutral branch is modelled by an explicit shuffle parameter. -/
def get_api_priority_list (shuffle : List String → List String)
    (base : List String) (logs : List LogEntry) : List String :=
  let pm := priority_map base logs
  let sorted := sortDesc pm base
  if ∀ x ∈ base, pm x = 1 then shuffle sorted else sorted

/-! ### Reading the reflection logs (_read_rcs_logs)

The YAML stream is a sequence of documents; each either parses to an entry
(some e) or is malformed (none).  The Python code materialises the whole
stream with list(yaml.safe_load_all(f)); the parser raises at the first
malformed document and the surrounding except clause then returns the empty
list, discarding the documents already parsed. -/
def _read_rcs_logs (docs : List (Option LogEntry)) : List LogEntry :=
  if docs.all Option.isSome then docs.filterMap id else []

example : priority_map ["A"] [.apiFailure "A" (mkRat 1 10), .checkpointEntry [("A", mkRat 9 10)]] "A"
    = mkRat 1 10 := by decide

example : get_api_priority_list id ["A", "B"]
    [.checkpointEntry [("A", mkRat 2 5)], .checkpointEntry [("A", mkRat 9 10), ("B", mkRat 4 5)]]
    = ["A", "B"] := by decide

/-! ### Provider fallback loop (ai_service.py)

An attempt at one provider either yields a draft (the structured output,
abstracted to its content) or raises an exception whose message drives the
classification in the except branch of get_ai_checkpoint_draft. -/
inductive AttemptResult where
  | ok (draft : String)
  | err (message : String)
deriving DecidableEq

/-- Substring test on character lists (the Python operator in on strings). -/
def containsSub (needle : List Char) : List Char → Bool
  | [] => needle.isEmpty
  | c :: t => needle.isPrefixOf (c :: t) || containsSub needle t

/-- Rate-limit detection from the except branch of get_ai_checkpoint_draft:
the lowercased message contains one of the three quota signals. -/
def hasRateLimitSignal (msg : String) : Bool :=
  let m := msg.toList.map Char.toLower
  containsSub "rate limit".toList m || containsSub "resource exhausted".toList m
    || containsSub "status_code=429".toList m

/-- The error_type computed by the except branch of get_ai_checkpoint_draft
(the value then passed to log_api_failure).  The initial value UNKNOWN_ERROR
is overwritten on both branches of the if. -/
def classify_error (msg : String) : String :=
  if hasRateLimitSignal msg then "RATE_LIMIT" else "VALIDATION_FAILURE"

/-- The provider walk of get_ai_checkpoint_draft over an already-ranked model
list: the first successful attempt returns its draft at once; each failing
attempt appends a log entry (model, error_type) via log_api_failure and the
loop continues; an exhausted list returns no draft.  The returned pair is
(draft result, audit entries appended during the walk, in append order). -/
def get_ai_checkpoint_draft (attempt : String → AttemptResult) :
    List String → Option String × List (String × String)
  | [] => (none, [])
  | m :: rest =>
    match attempt m with
    | .ok d => (some d, [])
    | .err msg =>
      let r := get_ai_checkpoint_draft attempt rest
      (r.1, (m, classify_error msg) :: r.2)

/-! ### Checkpoint files (checkpoint.py, gui_frames.py)

A file in brains/Project_Orchestrator/logs, identified by its creation
timestamp, its project and its tag: none is a pending draft
(suffix -checkpoint-NEW.yaml), some i a finalized record
(suffix -checkpoint-i.yaml).  Lists of files are kept in creation order. -/
structure LogFile where
  stamp : String
  project : String
  tag : Option ℕ
deriving DecidableEq

/-- The filename the repository gives a log file (section 6 naming). -/
def pathOf (f : LogFile) : String :=
  f.stamp ++ "-" ++ f.project ++ "-checkpoint-"
    ++ (match f.tag with | none => "NEW" | some i => toString i) ++ ".yaml"

/-- _get_next_checkpoint_index from checkpoint.py: scan the files matching
the project, skip the -NEW draft, keep the largest numeric index found
(starting from 0) and return that maximum plus one. -/
def _get_next_checkpoint_index (files : List LogFile) (project : String) : ℕ :=
  (files.foldl
    (fun acc f =>
      if f.project = project then
        match f.tag with
        | some i => max acc i
        | none => acc
      else acc) 0) + 1

/-- The pending -NEW.yaml drafts of a project, in creation order (the glob in
update_checkpoint_file and check_draft_status). -/
def pendingDrafts (files : List LogFile) (project : String) : List LogFile :=
  files.filter (fun f => f.project == project && f.tag.isNone)

/-- create_new_checkpoint from checkpoint.py: abort (leaving the files
untouched) when the gathered next-steps list is empty, otherwise write a new
-NEW.yaml draft file; no check for an existing pending draft is made. -/
def create_new_checkpoint (stamp project : String) (next_steps : List String)
    (files : List LogFile) : List LogFile :=
  if next_steps.isEmpty then files else files ++ [⟨stamp, project, none⟩]

/-- CheckpointFrame._save_draft_and_open_review from gui_frames.py: write a
new -NEW.yaml draft file named by the current timestamp, unconditionally. -/
def _save_draft_and_open_review (stamp project : String)
    (files : List LogFile) : List LogFile :=
  files ++ [⟨stamp, project, none⟩]

/-- CheckpointFrame.check_draft_status from gui_frames.py, reduced to the
state it gives the create-draft button (true = enabled): the button is
disabled whenever a pending draft file exists for the project, and otherwise
enabled unless the API status is still CHECKING. -/
def check_draft_status (files : List LogFile) (project : String)
    (apiChecking : Bool) : Bool :=
  if (pendingDrafts files project).isEmpty then !apiChecking else false

/-! ### Finalization (update_checkpoint_file) -/

/-- The mutable world seen by update_checkpoint_file: the log files and the
persisted orchestrator state, reduced to its managed_projects map
project to latest_checkpoint path. -/
structure World where
  files : List LogFile
  pointers : List (String × String)
deriving DecidableEq

/-- Outcomes of the IO operations performed by update_checkpoint_file,
supplied as oracles: whether os.rename succeeds, whether
read_orchestrator_state returns usable state data, and whether
save_orchestrator_state succeeds. -/
structure FinalizeEnv where
  renameOk : Bool
  stateLoadOk : Bool
  saveOk : Bool
deriving DecidableEq

/-- Result of update_checkpoint_file: success carries the renamed file (the
returned new_path); failure is the None return; crash is the uncaught
KeyError raised when the loaded state lacks the project. -/
inductive FinalizeResult where
  | success (newFile : LogFile)
  | failure
  | crash
deriving DecidableEq

/-- update_checkpoint_file from checkpoint.py: pick the most recent pending
draft (None when there is none), compute the next index, rename the draft to
it (an OSError leaves everything untouched and returns None); then, best
effort, load the orchestrator state, point the project's latest_checkpoint at
the new path and save; a load or save failure is only printed and the renamed
path is still returned as success. -/
def update_checkpoint_file (env : FinalizeEnv) (project : String) (w : World) :
    FinalizeResult × World :=
  match (pendingDrafts w.files project).getLast? with
  | none => (.failure, w)
  | some old =>
    if env.renameOk then
      let idx := _get_next_checkpoint_index w.files project
      let newFile : LogFile := { old with tag := some idx }
      let files2 := w.files.map (fun f => if f = old then newFile else f)
      if env.stateLoadOk then
        if (w.pointers.find? (fun p => p.1 == project)).isSome then
          let ptrs2 := w.pointers.map
            (fun p => if p.1 = project then (p.1, pathOf newFile) else p)
          if env.saveOk then (.success newFile, ⟨files2, ptrs2⟩)
          else (.success newFile, ⟨files2, w.pointers⟩)
        else (.crash, ⟨files2, w.pointers⟩)
      else (.success newFile, ⟨files2, w.pointers⟩)
    else (.failure, w)

/-! ### Commit (git_service.py) -/

/-- The IO context of git_service.commit_changes: whether the repository
object is available, whether the working tree is dirty, and whether staging
leaves a non-empty index. -/
structure CommitEnv where
  repoOk : Bool
  dirty : Bool
  indexChanged : Bool
deriving DecidableEq

/-- How a run of commit_changes ends. -/
inductive CommitOutcome where
  | aborted
  | clean
  | emptyIndex
  | committed
deriving DecidableEq

/-- git_service.commit_changes restricted to its effect on the log files: if
the repository is unavailable the run aborts untouched; otherwise step 1
removes every file matching *-checkpoint-NEW.yaml in the logs directory
(drafts of every project live there), and only then are the dirty check,
staging, commit and push performed.  The deletions themselves are modelled as
succeeding. -/
def commit_changes (env : CommitEnv) (files : List LogFile) :
    CommitOutcome × List LogFile :=
  if env.repoOk then
    let files2 := files.filter (fun f => f.tag.isSome)
    if env.dirty then
      if env.indexChanged then (.committed, files2) else (.emptyIndex, files2)
    else (.clean, files2)
  else (.aborted, files)

/-! ### The scoring algorithm as the specification words it (section 4.1)

These definitions follow the specification text, not the source; they exist
to be compared against the source-derived get_api_priority_list. -/

/-- Outcome of one provider attempt as the specification's data model has it:
a success carrying an efficiency score, or a failure. -/
inductive SpecOutcome where
  | success (score : ℚ)
  | failure
deriving DecidableEq

/-- The chronological outcome history of one provider, extracted from the
logs: failure entries for the provider, and the provider's efficiency score
from each checkpoint entry that carries one. -/
def spec_outcomes (logs : List LogEntry) (m : String) : List SpecOutcome :=
  logs.filterMap fun e =>
    match e with
    | .apiFailure m2 _ => if m2 == m then some .failure else none
    | .checkpointEntry scores =>
        (scores.find? (fun p => p.1 == m)).map fun p => .success p.2
    | .other => none

/-- Score of a success outcome, none for a failure. -/
def successScore : SpecOutcome → Option ℚ
  | .success q => some q
  | .failure => none

/-- Formalization of the specification sentence (section 4.1): a provider
score is a recency-weighted moving average over the most recent K = 10
outcomes, the single most recent qualifying outcome weighted double; no
history gives the neutral 1.0, and a most-recent failure imposes the 0.1
penalty until a later success supersedes it. -/
def spec_score (logs : List LogEntry) (m : String) : ℚ :=
  match (spec_outcomes logs m).reverse.take 10 with
  | [] => 1
  | .failure :: _ => mkRat 1 10
  | .success s :: rest =>
      let sucs := rest.filterMap successScore
      (2 * s + sucs.sum) / ((sucs.length : ℚ) + 2)

/-- Ranking as the specification words it: the providers sorted by descending
spec_score, ties preserving input order. -/
def spec_rank (base : List String) (logs : List LogEntry) : List String :=
  sortDesc (spec_score logs) base

/-! ### Helper lemmas on the stable descending sort -/

theorem insertDesc_perm (score : String → ℚ) (x : String) :
    ∀ l : List String, (insertDesc score x l).Perm (x :: l)
  | [] => by simp [insertDesc]
  | y :: ys => by
    rw [insertDesc]
    by_cases hc : score y < score x
    · rw [if_pos hc]
    · rw [if_neg hc]
      exact ((insertDesc_perm score x ys).cons y).trans (List.Perm.swap x y ys)

theorem insertDesc_pairwise (score : String → ℚ) (x : String) :
    ∀ l : List String, l.Pairwise (fun a b => score b ≤ score a) →
      (insertDesc score x l).Pairwise (fun a b => score b ≤ score a)
  | [], _ => by simp [insertDesc]
  | y :: ys, h => by
    rw [List.pairwise_cons] at h
    rw [insertDesc]
    by_cases hc : score y < score x
    · rw [if_pos hc]
      refine List.Pairwise.cons ?_ (List.Pairwise.cons h.1 h.2)
      intro b hb
      rcases List.mem_cons.mp hb with hb | hb
      · exact hb ▸ le_of_lt hc
      · exact le_trans (h.1 b hb) (le_of_lt hc)
    · rw [if_neg hc]
      refine List.Pairwise.cons ?_ (insertDesc_pairwise score x ys h.2)
      intro b hb
      rcases List.mem_cons.mp ((insertDesc_perm score x ys).mem_iff.mp hb) with hb2 | hb2
      · exact hb2 ▸ le_of_not_lt hc
      · exact h.1 b hb2

theorem sortDesc_perm_aux (score : String → ℚ) :
    ∀ (l acc : List String),
      (l.foldl (fun a x => insertDesc score x a) acc).Perm (acc ++ l)
  | [], acc => by simp
  | x :: xs, acc => by
    rw [List.foldl_cons]
    refine (sortDesc_perm_aux score xs (insertDesc score x acc)).trans ?_
    refine ((insertDesc_perm score x acc).append_right xs).trans ?_
    exact (@List.perm_middle String x acc xs).symm

theorem sortDesc_perm (score : String → ℚ) (l : List String) :
    (sortDesc score l).Perm l := by
  simpa [sortDesc] using sortDesc_perm_aux score l []

theorem sortDesc_pairwise_aux (score : String → ℚ) :
    ∀ (l acc : List String),
      acc.Pairwise (fun a b => score b ≤ score a) →
      (l.foldl (fun a x => insertDesc score x a) acc).Pairwise
        (fun a b => score b ≤ score a)
  | [], _, h => h
  | x :: xs, acc, h =>
    sortDesc_pairwise_aux score xs (insertDesc score x acc)
      (insertDesc_pairwise score x acc h)

theorem sortDesc_pairwise (score : String → ℚ) (l : List String) :
    (sortDesc score l).Pairwise (fun a b => score b ≤ score a) :=
  sortDesc_pairwise_aux score l [] List.Pairwise.nil

/-! ### Helper lemmas on the priority map -/

theorem priority_map_append (base : List String) (logs : List LogEntry)
    (e : LogEntry) :
    priority_map base (logs ++ [e]) = applyEntry base (priority_map base logs) e := by
  simp [priority_map, List.foldl_append]

/-- One scan step over an efficiency-score pair never moves a model whose
current priority is not above the penalty threshold. -/
theorem applyScores_step_preserve (base : List String) (acc : String → ℚ)
    (p : String × ℚ) (m : String) (h : ¬ mkRat 1 10 < acc m) :
    (if p.1 ∈ base ∧ mkRat 1 10 < acc p.1 then Function.update acc p.1 p.2 else acc) m
      = acc m := by
  by_cases hc : p.1 ∈ base ∧ mkRat 1 10 < acc p.1
  · rw [if_pos hc]
    by_cases hpm : p.1 = m
    · exact absurd (hpm ▸ hc.2) h
    · exact Function.update_noteq (fun he => hpm he.symm) _ _
  · rw [if_neg hc]

theorem applyScores_preserve (base : List String) (m : String) :
    ∀ (scores : List (String × ℚ)) (acc : String → ℚ),
      ¬ mkRat 1 10 < acc m → applyScores base acc scores m = acc m
  | [], _, _ => rfl
  | p :: ps, acc, h => by
    have hstep := applyScores_step_preserve base acc p m h
    have hrec := applyScores_preserve base m ps
      (if p.1 ∈ base ∧ mkRat 1 10 < acc p.1 then Function.update acc p.1 p.2 else acc)
      (by rw [hstep]; exact h)
    simpa [applyScores, List.foldl_cons, hstep] using hrec

/-- Whether a log entry is an API_FAILURE entry for the given model. -/
def isFailureFor (m : String) : LogEntry → Bool
  | .apiFailure m2 _ => m2 == m
  | _ => false

theorem applyEntry_preserve (base : List String) (acc : String → ℚ)
    (e : LogEntry) (m : String) (h1 : ¬ mkRat 1 10 < acc m)
    (h2 : isFailureFor m e = false) :
    applyEntry base acc e m = acc m := by
  cases e with
  | apiFailure m2 q =>
    have hne : m ≠ m2 := by
      intro he
      simp [isFailureFor, he] at h2
    by_cases hb : m2 ∈ base
    · simpa [applyEntry, hb] using Function.update_noteq hne _ _
    · simp [applyEntry, hb]
  | checkpointEntry scores => exact applyScores_preserve base m scores acc h1
  | other => rfl

theorem priority_foldl_stuck (base : List String) (m : String) :
    ∀ (post : List LogEntry) (acc : String → ℚ),
      acc m = mkRat 1 10 → (∀ e ∈ post, isFailureFor m e = false) →
      post.foldl (applyEntry base) acc m = mkRat 1 10
  | [], _, hacc, _ => hacc
  | e :: es, acc, hacc, hpost => by
    have h1 : ¬ mkRat 1 10 < acc m := by rw [hacc]; exact lt_irrefl _
    have hstep : applyEntry base acc e m = mkRat 1 10 := by
      rw [applyEntry_preserve base acc e m h1 (hpost e (List.mem_cons_self e es))]
      exact hacc
    rw [List.foldl_cons]
    exact priority_foldl_stuck base m es (applyEntry base acc e) hstep
      (fun x hx => hpost x (List.mem_cons_of_mem e hx))

/-! ### Claim C4 -/

/-- C4 (counterexample): the ranking does not compute a recency-weighted
moving average.  With two successes for A (0.4 then 0.9) and one for B (0.8),
the code keeps only the latest score (A scores 0.9 and ranks first), while
the specified weighted average gives A 11/15 and B 4/5, ranking B first. -/
theorem rank_not_recency_weighted_average :
    get_api_priority_list id ["A", "B"]
        [.checkpointEntry [("A", mkRat 2 5)],
         .checkpointEntry [("A", mkRat 9 10), ("B", mkRat 4 5)]] = ["A", "B"]
    ∧ spec_rank ["A", "B"]
        [.checkpointEntry [("A", mkRat 2 5)],
         .checkpointEntry [("A", mkRat 9 10), ("B", mkRat 4 5)]] = ["B", "A"]
    ∧ get_api_priority_list id ["A", "B"]
        [.checkpointEntry [("A", mkRat 2 5)],
         .checkpointEntry [("A", mkRat 9 10), ("B", mkRat 4 5)]]
      ≠ spec_rank ["A", "B"]
        [.checkpointEntry [("A", mkRat 2 5)],
         .checkpointEntry [("A", mkRat 9 10), ("B", mkRat 4 5)]] := by
  have hcode : get_api_priority_list id ["A", "B"]
      [.checkpointEntry [("A", mkRat 2 5)],
       .checkpointEntry [("A", mkRat 9 10), ("B", mkRat 4 5)]] = ["A", "B"] := by decide
  have hA : spec_score
      [.checkpointEntry [("A", mkRat 2 5)],
       .checkpointEntry [("A", mkRat 9 10), ("B", mkRat 4 5)]] "A" = 11/15 := by
    have h1 : (spec_outcomes
        [.checkpointEntry [("A", mkRat 2 5)],
         .checkpointEntry [("A", mkRat 9 10), ("B", mkRat 4 5)]] "A").reverse.take 10
        = [.success (mkRat 9 10), .success (mkRat 2 5)] := by decide
    rw [spec_score, h1]
    norm_num [successScore, Rat.mkRat_eq_div, List.filterMap_cons, List.filterMap_nil]
  have hB : spec_score
      [.checkpointEntry [("A", mkRat 2 5)],
       .checkpointEntry [("A", mkRat 9 10), ("B", mkRat 4 5)]] "B" = 4/5 := by
    have h1 : (spec_outcomes
        [.checkpointEntry [("A", mkRat 2 5)],
         .checkpointEntry [("A", mkRat 9 10), ("B", mkRat 4 5)]] "B").reverse.take 10
        = [.success (mkRat 4 5)] := by decide
    rw [spec_score, h1]
    norm_num [successScore, Rat.mkRat_eq_div, List.filterMap_cons, List.filterMap_nil]
  have hspec : spec_rank ["A", "B"]
      [.checkpointEntry [("A", mkRat 2 5)],
       .checkpointEntry [("A", mkRat 9 10), ("B", mkRat 4 5)]] = ["B", "A"] := by
    simp only [spec_rank, sortDesc, List.foldl, insertDesc, hA, hB]
    norm_num
  refine ⟨hcode, hspec, ?_⟩
  rw [hcode, hspec]
  decide

/-- C4 (amended): the ranking scores each provider by its latest applicable
history entry instead of a windowed average: a provider with no history keeps
the neutral 1.0; an API_FAILURE entry overwrites the score with its penalty;
a later efficiency score overwrites only when the current score is strictly
above 0.1.  The output is the base list stably sorted by descending score (a
permutation of base even in the all-neutral branch, where it is additionally
shuffled). -/
theorem rank_latest_overwrites (shuffle : List String → List String)
    (hsh : ∀ l, (shuffle l).Perm l)
    (base : List String) (logs : List LogEntry) (m : String) (q s : ℚ) :
    (get_api_priority_list shuffle base logs).Perm base
    ∧ ((¬ ∀ x ∈ base, priority_map base logs x = 1) →
        (get_api_priority_list shuffle base logs).Pairwise
          (fun a b => priority_map base logs b ≤ priority_map base logs a))
    ∧ priority_map base [] m = 1
    ∧ (m ∈ base → priority_map base (logs ++ [.apiFailure m q]) m = q)
    ∧ (m ∈ base → priority_map base (logs ++ [.checkpointEntry [(m, s)]]) m =
        if mkRat 1 10 < priority_map base logs m then s
        else priority_map base logs m) := by
  refine ⟨?_, ?_, rfl, ?_, ?_⟩
  · simp only [get_api_priority_list]
    by_cases hall : ∀ x ∈ base, priority_map base logs x = 1
    · rw [if_pos hall]
      exact (hsh _).trans (sortDesc_perm _ _)
    · rw [if_neg hall]
      exact sortDesc_perm _ _
  · intro hall
    simp only [get_api_priority_list]
    rw [if_neg hall]
    exact sortDesc_pairwise _ _
  · intro hm
    rw [priority_map_append]
    simp [applyEntry, hm, Function.update_same]
  · intro hm
    rw [priority_map_append]
    by_cases h : mkRat 1 10 < priority_map base logs m
    · simp [applyEntry, applyScores, hm, h, Function.update_same]
    · simp [applyEntry, applyScores, hm, h]

/-- C4 (witness): the amended ranking facts evaluated on a concrete history
with non-neutral scores. -/
theorem rank_latest_overwrites_witness :
    (get_api_priority_list id ["A", "B"]
        [.checkpointEntry [("A", mkRat 2 5)],
         .checkpointEntry [("A", mkRat 9 10), ("B", mkRat 4 5)]]).Pairwise
      (fun a b =>
        priority_map ["A", "B"]
            [.checkpointEntry [("A", mkRat 2 5)],
             .checkpointEntry [("A", mkRat 9 10), ("B", mkRat 4 5)]] b
          ≤ priority_map ["A", "B"]
            [.checkpointEntry [("A", mkRat 2 5)],
             .checkpointEntry [("A", mkRat 9 10), ("B", mkRat 4 5)]] a)
    ∧ priority_map ["A", "B"] [] "A" = 1 := by
  have h := rank_latest_overwrites id (fun l => List.Perm.refl l) ["A", "B"]
    [.checkpointEntry [("A", mkRat 2 5)],
     .checkpointEntry [("A", mkRat 9 10), ("B", mkRat 4 5)]] "A" 0 0
  exact ⟨h.2.1 (by decide), h.2.2.1⟩

/-! ### Claim C5 -/

/-- C5 (counterexample): a failure entry for A (penalty 0.1) followed later
by a success entry with efficiency score 0.9 (greater than 0.1) leaves A's
final score at exactly 0.1, not above it: the guard requiring the current
score to exceed 0.1 blocks the later success from superseding the penalty. -/
theorem penalty_not_superseded :
    priority_map ["A"]
        [.apiFailure "A" (mkRat 1 10), .checkpointEntry [("A", mkRat 9 10)]] "A"
      = mkRat 1 10
    ∧ ¬ mkRat 1 10 < priority_map ["A"]
        [.apiFailure "A" (mkRat 1 10), .checkpointEntry [("A", mkRat 9 10)]] "A"
    ∧ mkRat 1 10 < mkRat 9 10 := by decide

/-- C5 (amended): once an API_FAILURE entry with the standard 0.1 penalty is
processed for a provider, every later entry that is not a failure entry for
that provider (in particular every later success score, however high) leaves
the score at exactly 0.1. -/
theorem penalty_sticks (base : List String) (m : String)
    (pre post : List LogEntry) (hm : m ∈ base)
    (hpost : ∀ e ∈ post, isFailureFor m e = false) :
    priority_map base (pre ++ .apiFailure m (mkRat 1 10) :: post) m
      = mkRat 1 10 := by
  unfold priority_map
  rw [List.foldl_append, List.foldl_cons]
  apply priority_foldl_stuck base m post _ _ hpost
  simp [applyEntry, hm, Function.update_same]

/-- C5 (witness): the sticking penalty evaluated on the concrete history of
the counterexample. -/
theorem penalty_sticks_witness :
    priority_map ["A"]
        ([] ++ .apiFailure "A" (mkRat 1 10) :: [.checkpointEntry [("A", mkRat 9 10)]]) "A"
      = mkRat 1 10 :=
  penalty_sticks ["A"] "A" [] [.checkpointEntry [("A", mkRat 9 10)]]
    (by decide) (by decide)

/-! ### Claim C1 -/

/-- The finalized sequence indices recorded for a project (the numeric
suffixes of its non-NEW checkpoint files). -/
def finalizedIndices (files : List LogFile) (project : String) : List ℕ :=
  files.filterMap (fun f => if f.project = project then f.tag else none)

/-- The largest finalized index of a project, 0 when none exists (the value
the source's max_index variable holds after its scan). -/
def maxFinalizedIndex (files : List LogFile) (project : String) : ℕ :=
  (finalizedIndices files project).foldr max 0

theorem next_index_fold_eq (project : String) :
    ∀ (files : List LogFile) (acc : ℕ),
      files.foldl
        (fun acc f =>
          if f.project = project then
            match f.tag with
            | some i => max acc i
            | none => acc
          else acc) acc
      = max acc ((finalizedIndices files project).foldr max 0)
  | [], acc => by simp [finalizedIndices]
  | f :: fs, acc => by
    by_cases hp : f.project = project
    · cases ht : f.tag with
      | none =>
        rw [List.foldl_cons]
        simp only [hp, if_pos, ht]
        rw [next_index_fold_eq project fs acc]
        simp [finalizedIndices, List.filterMap_cons, hp, ht]
      | some i =>
        rw [List.foldl_cons]
        simp only [hp, if_pos, ht]
        rw [next_index_fold_eq project fs (max acc i)]
        simp only [finalizedIndices, List.filterMap_cons, hp, if_pos, ht,
          List.foldr_cons]
        exact (Nat.max_assoc acc i _)
    · rw [List.foldl_cons]
      simp only [hp, if_neg, if_false]
      rw [next_index_fold_eq project fs acc]
      simp [finalizedIndices, List.filterMap_cons, hp]

theorem foldr_max_append (l : List ℕ) (n : ℕ) :
    ((l ++ [n]).foldr max 0) = max (l.foldr max 0) n := by
  induction l with
  | nil => simp [Nat.max_comm]
  | cons a t ih =>
    simp only [List.cons_append, List.foldr_cons, ih]
    exact (Nat.max_assoc a _ n).symm

/-- C1 (counterexample): with no finalized record for the project at all, the
assigned index is 1, not 0 as the claim states: max_index starts at 0 and the
function returns max_index plus one. -/
theorem next_index_empty_not_zero :
    finalizedIndices [] "P" = []
    ∧ _get_next_checkpoint_index [] "P" = 1
    ∧ _get_next_checkpoint_index [] "P" ≠ 0 := by decide

/-- C1 (amended): the index assigned by a finalize is one plus the maximum
existing finalized index of the project, where the maximum of an empty set is
taken as 0; hence the first assigned index is 1 (index 0 being left to the
project scaffold record), and consecutive finalizes assign strictly
consecutive integers: finalizing with the assigned index makes the next
assigned index exactly one larger. -/
theorem next_index_consecutive (files : List LogFile) (project stamp : String) :
    _get_next_checkpoint_index files project
      = maxFinalizedIndex files project + 1
    ∧ (finalizedIndices files project = [] →
        _get_next_checkpoint_index files project = 1)
    ∧ _get_next_checkpoint_index
        (files ++ [⟨stamp, project,
          some (_get_next_checkpoint_index files project)⟩]) project
      = _get_next_checkpoint_index files project + 1 := by
  have hbase : ∀ fs : List LogFile,
      _get_next_checkpoint_index fs project = maxFinalizedIndex fs project + 1 := by
    intro fs
    unfold _get_next_checkpoint_index maxFinalizedIndex
    rw [next_index_fold_eq project fs 0]
    simp
  refine ⟨hbase files, ?_, ?_⟩
  · intro h
    rw [hbase files]
    simp [maxFinalizedIndex, h]
  · simp only [hbase]
    have hidx : finalizedIndices
        (files ++ [⟨stamp, project, some (maxFinalizedIndex files project + 1)⟩])
          project
        = finalizedIndices files project ++ [maxFinalizedIndex files project + 1] := by
      simp [finalizedIndices, List.filterMap_append]
    have key : maxFinalizedIndex
        (files ++ [⟨stamp, project, some (maxFinalizedIndex files project + 1)⟩])
          project
        = maxFinalizedIndex files project + 1 := by
      unfold maxFinalizedIndex
      unfold maxFinalizedIndex at hidx
      rw [hidx, foldr_max_append]
      exact Nat.max_eq_right (Nat.le_succ _)
    rw [key]

/-- C1 (witness): the amended index facts evaluated on a concrete file list
holding finalized indices 1 and 2 for P, where the next assigned index is 3
and finalizing at 3 makes the following index 4. -/
theorem next_index_consecutive_witness :
    _get_next_checkpoint_index
        [⟨"t1", "P", some 1⟩, ⟨"t2", "P", some 2⟩, ⟨"t3", "Q", some 7⟩] "P" = 3
    ∧ _get_next_checkpoint_index
        ([⟨"t1", "P", some 1⟩, ⟨"t2", "P", some 2⟩, ⟨"t3", "Q", some 7⟩]
          ++ [⟨"t4", "P", some 3⟩]) "P" = 4 := by
  have h := next_index_consecutive
    [⟨"t1", "P", some 1⟩, ⟨"t2", "P", some 2⟩, ⟨"t3", "Q", some 7⟩] "P" "t4"
  have h1 : _get_next_checkpoint_index
      [⟨"t1", "P", some 1⟩, ⟨"t2", "P", some 2⟩, ⟨"t3", "Q", some 7⟩] "P" = 3 := by
    rw [h.1]; decide
  refine ⟨h1, ?_⟩
  have h3 := h.2.2
  rw [h1] at h3
  rw [h3]

/-! ### Claim C2 -/

/-- C2 (counterexample): with a pending draft for P already present, a second
create call at a later timestamp does not fail and does not leave the records
unchanged: it writes a second pending draft, so two DraftPending records for
P coexist, and the first draft is still there. -/
theorem second_draft_not_rejected :
    (pendingDrafts (create_new_checkpoint "t2" "P" ["task"]
        [⟨"t1", "P", none⟩]) "P").length = 2
    ∧ create_new_checkpoint "t2" "P" ["task"] [⟨"t1", "P", none⟩]
        ≠ [⟨"t1", "P", none⟩]
    ∧ (⟨"t1", "P", none⟩ : LogFile)
        ∈ create_new_checkpoint "t2" "P" ["task"] [⟨"t1", "P", none⟩] := by decide

/-- C2 (amended): the conflict protection lives in the GUI state, not in the
create operation: check_draft_status enables the create button only when no
pending draft file exists for the project, while the save operations
themselves perform no check: they keep every existing file unchanged (the old
list is a prefix of the new one) and unconditionally add one more pending
draft; the CLI create_new_checkpoint behaves the same whenever its gathered
next-steps list is non-empty. -/
theorem draft_conflict_guard (files : List LogFile) (project stamp : String)
    (steps : List String) (apiChecking : Bool) :
    (check_draft_status files project apiChecking = true →
        pendingDrafts files project = [])
    ∧ files <+: _save_draft_and_open_review stamp project files
    ∧ (pendingDrafts (_save_draft_and_open_review stamp project files) project).length
        = (pendingDrafts files project).length + 1
    ∧ (steps ≠ [] →
        create_new_checkpoint stamp project steps files
          = _save_draft_and_open_review stamp project files) := by
  refine ⟨?_, ?_, ?_, ?_⟩
  · intro h
    by_cases hp : (pendingDrafts files project).isEmpty
    · exact List.isEmpty_iff.mp hp
    · simp [check_draft_status, hp] at h
  · exact List.prefix_append _ _
  · simp [pendingDrafts, _save_draft_and_open_review, List.filter_append]
  · intro h
    simp [create_new_checkpoint, _save_draft_and_open_review, h]

/-- C2 (witness): the guard and the save evaluated on a concrete state with
one finalized record and no pending draft. -/
theorem draft_conflict_guard_witness :
    pendingDrafts [⟨"t1", "P", some 1⟩] "P" = []
    ∧ (pendingDrafts
        (_save_draft_and_open_review "t2" "P" [⟨"t1", "P", some 1⟩]) "P").length
      = (pendingDrafts [⟨"t1", "P", some 1⟩] "P").length + 1 := by
  have h := draft_conflict_guard [⟨"t1", "P", some 1⟩] "P" "t2" ["task"] false
  exact ⟨h.1 (by decide), h.2.2.1⟩

/-! ### Claim C3 -/

/-- C3 (counterexample): a finalize run whose rename succeeds but whose
orchestrator-state load fails still returns success with the draft promoted,
yet the ProjectPointer is left pointing at the old path, violating the
all-or-nothing disjunction of the claim. -/
theorem finalize_pointer_not_updated :
    (update_checkpoint_file ⟨true, false, true⟩ "P"
        ⟨[⟨"t1", "P", none⟩], [("P", "old.yaml")]⟩).1
      = .success ⟨"t1", "P", some 1⟩
    ∧ (update_checkpoint_file ⟨true, false, true⟩ "P"
        ⟨[⟨"t1", "P", none⟩], [("P", "old.yaml")]⟩).2.pointers
      = [("P", "old.yaml")]
    ∧ "old.yaml" ≠ pathOf ⟨"t1", "P", some 1⟩ := by decide

/-- C3 (amended): the draft promotion itself is all-or-nothing (a failure
result leaves the whole world unchanged; a success result renames the most
recent pending draft to the next index), but the ProjectPointer update is
only best effort: it happens exactly when the state load and the state save
both succeed (and the project is present in the loaded state); when the load
or the save fails, success is still returned and the pointer store is left
unchanged. -/
theorem finalize_effects (env : FinalizeEnv) (project : String) (w : World) :
    ((update_checkpoint_file env project w).1 = .failure →
        (update_checkpoint_file env project w).2 = w)
    ∧ (∀ nf, (update_checkpoint_file env project w).1 = .success nf →
        (∃ old, (pendingDrafts w.files project).getLast? = some old
          ∧ nf = { old with tag := some (_get_next_checkpoint_index w.files project) }
          ∧ (update_checkpoint_file env project w).2.files
              = w.files.map (fun f => if f = old then nf else f))
        ∧ ((env.stateLoadOk = false ∨ env.saveOk = false) →
            (update_checkpoint_file env project w).2.pointers = w.pointers)
        ∧ (env.stateLoadOk = true → env.saveOk = true →
            (w.pointers.find? (fun p => p.1 == project)).isSome = true →
            (update_checkpoint_file env project w).2.pointers
              = w.pointers.map (fun p =>
                  if p.1 = project then (p.1, pathOf nf) else p))) := by
  obtain ⟨r, l, sv⟩ := env
  cases hold : (pendingDrafts w.files project).getLast? with
  | none =>
    constructor
    · intro _
      simp [update_checkpoint_file, hold]
    · intro nf hnf
      simp [update_checkpoint_file, hold] at hnf
  | some old =>
    cases r with
    | false =>
      constructor
      · intro _
        simp [update_checkpoint_file, hold]
      · intro nf hnf
        simp [update_checkpoint_file, hold] at hnf
    | true =>
      cases l with
      | false =>
        constructor
        · intro hf
          simp [update_checkpoint_file, hold] at hf
        · intro nf hnf
          simp only [update_checkpoint_file, hold] at hnf ⊢
          simp only [if_true, Bool.false_eq_true, if_false,
            FinalizeResult.success.injEq] at hnf
          refine ⟨⟨old, rfl, hnf.symm, ?_⟩, fun _ => ?_, fun hl _ _ => ?_⟩
          · subst hnf
            simp
          · subst hnf
            simp
          · exact absurd hl (by simp)
      | true =>
        by_cases hfind : (w.pointers.find? (fun p => p.1 == project)).isSome = true
        · cases sv with
          | false =>
            constructor
            · intro hf
              simp [update_checkpoint_file, hold, hfind] at hf
            · intro nf hnf
              simp only [update_checkpoint_file, hold] at hnf ⊢
              simp only [if_true, hfind, Bool.false_eq_true, if_false,
                FinalizeResult.success.injEq] at hnf
              refine ⟨⟨old, rfl, hnf.symm, ?_⟩, fun hc => ?_, fun _ hsv _ => ?_⟩
              · subst hnf
                simp [hfind]
              · subst hnf
                simp [hfind]
              · exact absurd hsv (by simp)
          | true =>
            constructor
            · intro hf
              simp [update_checkpoint_file, hold, hfind] at hf
            · intro nf hnf
              simp only [update_checkpoint_file, hold] at hnf ⊢
              simp only [if_true, hfind, FinalizeResult.success.injEq] at hnf
              refine ⟨⟨old, rfl, hnf.symm, ?_⟩, fun hc => ?_, fun _ _ _ => ?_⟩
              · subst hnf
                simp [hfind]
              · rcases hc with hc | hc <;> exact absurd hc (by simp)
              · subst hnf
                simp [hfind]
        · constructor
          · intro hf
            simp [update_checkpoint_file, hold, hfind] at hf
          · intro nf hnf
            simp [update_checkpoint_file, hold, hfind] at hnf

/-- C3 (witness): the amended finalize facts evaluated on a concrete world
where every IO step succeeds: the draft is promoted to index 1 and the
pointer is updated to the new path. -/
theorem finalize_effects_witness :
    (update_checkpoint_file ⟨true, true, true⟩ "P"
        ⟨[⟨"t1", "P", none⟩], [("P", "old.yaml")]⟩).2.pointers
      = [("P", "old.yaml")].map (fun p =>
          if p.1 = "P" then (p.1, pathOf ⟨"t1", "P", some 1⟩) else p) := by
  have h := finalize_effects ⟨true, true, true⟩ "P"
    ⟨[⟨"t1", "P", none⟩], [("P", "old.yaml")]⟩
  exact (h.2 ⟨"t1", "P", some 1⟩ (by decide)).2.2 rfl rfl (by decide)

/-! ### Claim C6 -/

/-- Whether an attempt took the except path of the fallback loop. -/
def isErrAttempt : AttemptResult → Bool
  | .ok _ => false
  | .err _ => true

/-- The audit entry one attempt produces: a failing attempt is logged with
its classified error type; a successful attempt produces no entry. -/
def attemptLogEntry (attempt : String → AttemptResult) (m : String) :
    Option (String × String) :=
  match attempt m with
  | .ok _ => none
  | .err msg => some (m, classify_error msg)

/-- C6 (counterexample): a run whose very first provider succeeds returns the
draft with an empty audit log: the successful attempt is not recorded, so not
every provider attempt results in a logged OutcomeEntry. -/
theorem success_not_logged :
    (get_ai_checkpoint_draft (fun _ => .ok "draft")
        ["gemini/gemini-2.5-flash"]).1 = some "draft"
    ∧ (get_ai_checkpoint_draft (fun _ => .ok "draft")
        ["gemini/gemini-2.5-flash"]).2 = [] := by decide

/-- C6 (amended): the audit log of a draft run records exactly the failing
attempts made before the first success, in order, each through
log_api_failure; the successful attempt itself, and any provider after it,
produce no entry. -/
theorem audit_logs_failures_only (attempt : String → AttemptResult) :
    ∀ models : List String,
      (get_ai_checkpoint_draft attempt models).2
        = (models.takeWhile (fun m => isErrAttempt (attempt m))).filterMap
            (attemptLogEntry attempt)
  | [] => rfl
  | m :: rest => by
    cases h : attempt m with
    | ok d =>
      simp [get_ai_checkpoint_draft, h, List.takeWhile_cons, isErrAttempt]
    | err msg =>
      simp [get_ai_checkpoint_draft, h, List.takeWhile_cons, isErrAttempt,
        attemptLogEntry, audit_logs_failures_only attempt rest]

/-! ### Claim C7 -/

/-- C7 (confirmed): the fallback loop walks the ranked list strictly in
order: when every provider fails the result is no draft (each failure
logged); when the providers before m all fail and m succeeds with draft d,
the run returns d, and the whole run result is unchanged under any
reassignment of the attempt behaviour of the providers after m: the later
providers are never attempted. -/
theorem fallback_short_circuit (attempt : String → AttemptResult) :
    (∀ models : List String,
        (∀ m ∈ models, isErrAttempt (attempt m) = true) →
        (get_ai_checkpoint_draft attempt models).1 = none)
    ∧ (∀ (pre : List String) (m : String) (post : List String) (d : String),
        (∀ x ∈ pre, isErrAttempt (attempt x) = true) → attempt m = .ok d →
        (get_ai_checkpoint_draft attempt (pre ++ m :: post)).1 = some d
        ∧ ∀ attempt2 : String → AttemptResult,
            (∀ x ∈ pre, attempt2 x = attempt x) → attempt2 m = attempt m →
            get_ai_checkpoint_draft attempt2 (pre ++ m :: post)
              = get_ai_checkpoint_draft attempt (pre ++ m :: post)) := by
  constructor
  · intro models
    induction models with
    | nil => intro _; rfl
    | cons m rest ih =>
      intro h
      cases ha : attempt m with
      | ok d =>
        have hm := h m (List.mem_cons_self m rest)
        rw [ha] at hm
        simp [isErrAttempt] at hm
      | err msg =>
        simp only [get_ai_checkpoint_draft, ha]
        exact ih (fun x hx => h x (List.mem_cons_of_mem m hx))
  · intro pre
    induction pre with
    | nil =>
      intro m post d _ hm
      constructor
      · simp [get_ai_checkpoint_draft, hm]
      · intro attempt2 _ hm2
        have hm2' : attempt2 m = .ok d := hm2.trans hm
        simp [get_ai_checkpoint_draft, hm, hm2']
    | cons x xs ih =>
      intro m post d hpre hm
      have hx := hpre x (List.mem_cons_self x xs)
      cases hax : attempt x with
      | ok dd =>
        rw [hax] at hx
        simp [isErrAttempt] at hx
      | err msg =>
        have ihh := ih m post d
          (fun y hy => hpre y (List.mem_cons_of_mem x hy)) hm
        constructor
        · simp only [List.cons_append, get_ai_checkpoint_draft, hax]
          exact ihh.1
        · intro attempt2 hag hm2
          have hax2 : attempt2 x = .err msg :=
            (hag x (List.mem_cons_self x xs)).trans hax
          have hrec := ihh.2 attempt2
            (fun y hy => hag y (List.mem_cons_of_mem x hy)) hm2
          simp only [List.cons_append, get_ai_checkpoint_draft, hax, hax2]
          have hrec2 : get_ai_checkpoint_draft attempt2 (xs.append (m :: post))
              = get_ai_checkpoint_draft attempt (xs.append (m :: post)) := hrec
          rw [hrec2]

/-- C7 (witness): the short-circuit evaluated on the concrete ranked list
A, B, C where A fails and B succeeds: the run returns B's draft. -/
theorem fallback_short_circuit_witness :
    (get_ai_checkpoint_draft
        (fun m => if m = "B" then .ok "d" else .err "boom") ["A", "B", "C"]).1
      = some "d" := by
  have h := (fallback_short_circuit
      (fun m => if m = "B" then .ok "d" else .err "boom")).2
    ["A"] "B" ["C"] "d" (by decide) (by simp)
  exact h.1

/-! ### Claim C8 -/

/-- C8 (counterexample): a failure message that carries no rate-limit signal
and is no schema violation (a refused connection) is classified and logged as
VALIDATION_FAILURE, not as a third OtherFailure kind: the initialized
UNKNOWN_ERROR value is overwritten on both branches. -/
theorem other_failure_logged_as_validation :
    classify_error "Connection refused by host" = "VALIDATION_FAILURE"
    ∧ classify_error "Connection refused by host" ≠ "UNKNOWN_ERROR"
    ∧ hasRateLimitSignal "Connection refused by host" = false := by decide

/-- C8 (amended): the classification of a failed attempt is two-way, not
three-way: a message carrying a rate-limit or quota signal (case-insensitive
rate limit, resource exhausted, or status_code=429) is classified RATE_LIMIT
and every other failure is classified VALIDATION_FAILURE; no logged entry
ever carries the UNKNOWN_ERROR kind. -/
theorem classification_two_way (attempt : String → AttemptResult)
    (models : List String) (msg : String) :
    classify_error msg ≠ "UNKNOWN_ERROR"
    ∧ (hasRateLimitSignal msg = true → classify_error msg = "RATE_LIMIT")
    ∧ (hasRateLimitSignal msg = false → classify_error msg = "VALIDATION_FAILURE")
    ∧ (∀ e ∈ (get_ai_checkpoint_draft attempt models).2,
        e.2 = "RATE_LIMIT" ∨ e.2 = "VALIDATION_FAILURE") := by
  refine ⟨?_, fun h => by simp [classify_error, h],
    fun h => by simp [classify_error, h], ?_⟩
  · by_cases h : hasRateLimitSignal msg <;> simp [classify_error, h]
  · induction models with
    | nil =>
      intro e he
      simp [get_ai_checkpoint_draft] at he
    | cons m rest ih =>
      intro e he
      cases ha : attempt m with
      | ok d =>
        simp [get_ai_checkpoint_draft, ha] at he
      | err msg2 =>
        simp only [get_ai_checkpoint_draft, ha] at he
        rcases List.mem_cons.mp he with rfl | he2
        · by_cases hs : hasRateLimitSignal msg2 <;> simp [classify_error, hs]
        · exact ih e he2

/-- C8 (witness): the two-way classification evaluated on one rate-limit
message and one generic failure message. -/
theorem classification_two_way_witness :
    classify_error "Rate limit reached" = "RATE_LIMIT"
    ∧ classify_error "bad json output" = "VALIDATION_FAILURE" :=
  ⟨(classification_two_way (fun _ => .err "x") [] "Rate limit reached").2.1
      (by decide),
    (classification_two_way (fun _ => .err "x") [] "bad json output").2.2.1
      (by decide)⟩

/-! ### Claim C9 -/

/-- C9 (counterexample): a stream holding one well-formed entry followed by a
malformed trailing document reads back as the empty list: the earlier
well-formed entry is dropped with it, instead of being returned as the claim
requires (skipping only the malformed tail would give the one entry). -/
theorem truncated_log_empties_read :
    _read_rcs_logs [some .other, none] = []
    ∧ [some (LogEntry.other), none].filterMap id = [.other]
    ∧ ([] : List LogEntry) ≠ [.other] := by decide

/-- C9 (amended): reading the reflection logs is all-or-nothing: any
malformed document anywhere in the stream makes the whole read return the
empty list (the parse error is caught and everything already parsed is
discarded); only a stream with no malformed document returns its entries, all
of them in original order. -/
theorem read_logs_all_or_nothing (docs : List (Option LogEntry)) :
    ((∃ d ∈ docs, d = none) → _read_rcs_logs docs = [])
    ∧ ((∀ d ∈ docs, d.isSome = true) →
        _read_rcs_logs docs = docs.filterMap id) := by
  constructor
  · rintro ⟨d, hd, rfl⟩
    have hfalse : ¬ docs.all Option.isSome = true := by
      intro hall
      have := List.all_eq_true.mp hall none hd
      simp at this
    simp [_read_rcs_logs, hfalse]
  · intro h
    have hall : docs.all Option.isSome = true := List.all_eq_true.mpr h
    simp [_read_rcs_logs, hall]

/-- C9 (witness): the all-or-nothing read evaluated on the truncated stream
(empty result) and on its well-formed prefix alone (entry returned). -/
theorem read_logs_all_or_nothing_witness :
    _read_rcs_logs [some .other, none] = []
    ∧ _read_rcs_logs [some .other] = [.other] := by
  have h := read_logs_all_or_nothing [some .other, none]
  have h2 := read_logs_all_or_nothing [some .other]
  exact ⟨h.1 ⟨none, by decide, rfl⟩, h2.2 (by decide)⟩

/-! ### Claim C10 -/

/-- C10 (confirmed): whenever the repository object is available, a run of
commit_changes leaves a file state with no pending draft at all (for any
project), keeps every finalized record, and in particular removes every file
that was a pending draft: the deletion phase runs before staging, so the
staged state never contains a draft. -/
theorem commit_destroys_pending_drafts (env : CommitEnv) (files : List LogFile)
    (h : env.repoOk = true) :
    (∀ f ∈ (commit_changes env files).2, f.tag.isSome = true)
    ∧ (∀ f ∈ files, f.tag.isSome = true → f ∈ (commit_changes env files).2)
    ∧ (∀ f ∈ files, f.tag = none → f ∉ (commit_changes env files).2) := by
  obtain ⟨r, d, ic⟩ := env
  simp only at h
  subst h
  have hsnd : (commit_changes ⟨true, d, ic⟩ files).2
      = files.filter (fun f => f.tag.isSome) := by
    cases d <;> cases ic <;> simp [commit_changes]
  rw [hsnd]
  refine ⟨?_, ?_, ?_⟩
  · intro f hf
    exact (List.mem_filter.mp hf).2
  · intro f hf ht
    exact List.mem_filter.mpr ⟨hf, ht⟩
  · intro f hf ht hmem
    have := (List.mem_filter.mp hmem).2
    rw [ht] at this
    simp at this

/-- C10 (witness): a concrete commit run in which the pending draft of Q is
destroyed while the finalized record of P survives. -/
theorem commit_destroys_pending_drafts_witness :
    (⟨"t2", "Q", none⟩ : LogFile) ∉ (commit_changes ⟨true, true, true⟩
        [⟨"t1", "P", some 1⟩, ⟨"t2", "Q", none⟩]).2
    ∧ (⟨"t1", "P", some 1⟩ : LogFile) ∈ (commit_changes ⟨true, true, true⟩
        [⟨"t1", "P", some 1⟩, ⟨"t2", "Q", none⟩]).2 := by
  have h := commit_destroys_pending_drafts ⟨true, true, true⟩
    [⟨"t1", "P", some 1⟩, ⟨"t2", "Q", none⟩] rfl
  exact ⟨h.2.2 _ (by decide) rfl, h.2.1 _ (by decide) rfl⟩
